import Mathlib

/-
Verification of the tidf game-session server: a shallow embedding of the
binary codec (src/bitwise/src/lib.rs and the derive macro in
src/derive/src/lib.rs), the slot pool, session and connection-endpoint
logic (src/server/src/server.rs) and the double-buffered snapshot
primitive (src/util/src/sync.rs), together with theorems settling the
frozen specification claims.

Conventions of the embedding:
- bytes are Nat values (every encoder emits values < 256);
- machine usize arithmetic is Nat, with an explicit wrap at 2 ^ 64 in the
  one place where an attacker-controlled u64 length participates
  (String::decode), matching release-mode wrapping semantics;
- fallible decoding returns DecRes: ok value cursor, fail (a clean
  decode failure, Rust None), or fault (a Rust panic, e.g. a slice
  bounds violation or an invalid pool index);
- code that Rust mutates in place is explicit state passing.
-/

/-- Result of a decode step: ok with value and advanced cursor, a clean
failure (Rust returns None), or a fault (Rust panics). -/
inductive DecRes (α : Type) where
  | ok (val : α) (cursor : Nat)
  | fail
  | fault
deriving DecidableEq, Repr

/-- Little-endian byte encoding of a value at width w, as in
to_le_bytes: byte i is v / 256 ^ i % 256. -/
def natToLE : Nat → Nat → List Nat
  | 0, _ => []
  | w + 1, v => v % 256 :: natToLE w (v / 256)

/-- Little-endian byte decoding, as in from_le_bytes. -/
def natFromLE : List Nat → Nat
  | [] => 0
  | b :: rest => b + 256 * natFromLE rest

/-- Bitwise::decode for a fixed-width number
(src/bitwise/src/lib.rs impl_bitwise_for_number): fails when fewer than
w bytes remain past the cursor, otherwise reads w little-endian bytes
and advances the cursor.  (Rust computes cursor + w in usize; a real
Vec never comes within 16 bytes of 2 ^ 64, so plain Nat addition is
faithful here.) -/
def decodeNum (w cursor : Nat) (buffer : List Nat) : DecRes Nat :=
  if buffer.length < cursor + w then .fail
  else .ok (natFromLE ((buffer.drop cursor).take w)) (cursor + w)

/-- Bitwise::decode for bool (src/bitwise/src/lib.rs): one byte, any
nonzero byte is true. -/
def boolDecode (cursor : Nat) (buffer : List Nat) : DecRes Bool :=
  if buffer.length < cursor + 1 then .fail
  else .ok (buffer.getD cursor 0 != 0) (cursor + 1)

/-- usize decode: 8-byte little-endian number. -/
def usizeDecode (cursor : Nat) (buffer : List Nat) : DecRes Nat :=
  decodeNum 8 cursor buffer

/-- Bitwise::encode for a Vec: usize length prefix then each element's
encoding in order (src/bitwise/src/lib.rs). -/
def vecEncode (enc : α → List Nat) (xs : List α) : List Nat :=
  natToLE 8 xs.length ++ (xs.map enc).flatten

/-- Element loop of Vec::decode: n elements, threading the cursor. -/
def vecDecodeElems (dec : Nat → List Nat → DecRes α) :
    Nat → Nat → List Nat → DecRes (List α)
  | 0, cursor, _ => .ok [] cursor
  | n + 1, cursor, buffer =>
    match dec cursor buffer with
    | .ok t c1 =>
      match vecDecodeElems dec n c1 buffer with
      | .ok ts c2 => .ok (t :: ts) c2
      | .fail => .fail
      | .fault => .fault
    | .fail => .fail
    | .fault => .fault

/-- Bitwise::decode for a Vec (src/bitwise/src/lib.rs): usize length
prefix, rejected when it exceeds the remaining buffer length, then that
many element decodes. -/
def vecDecode (dec : Nat → List Nat → DecRes α) (cursor : Nat)
    (buffer : List Nat) : DecRes (List α) :=
  match usizeDecode cursor buffer with
  | .ok len c1 =>
    if len > buffer.length - c1 then .fail
    else vecDecodeElems dec len c1 buffer
  | .fail => .fail
  | .fault => .fault

/-- Whether a byte is a UTF-8 continuation byte (0x80..=0xBF). -/
def utf8Cont (b : Nat) : Bool := 128 ≤ b && b ≤ 191

/-- Consume one well-formed UTF-8 scalar from the front of a byte list,
returning the remainder, or none when the front is ill-formed.  Models
the validation performed by std::str::from_utf8, which is library code
outside this repository. -/
def utf8Step : List Nat → Option (List Nat)
  | [] => none
  | b :: rest =>
    if b ≤ 127 then some rest
    else if 194 ≤ b && b ≤ 223 then
      match rest with
      | c1 :: r => if utf8Cont c1 then some r else none
      | [] => none
    else if 224 ≤ b && b ≤ 239 then
      match rest with
      | c1 :: c2 :: r =>
        let lo1 := if b = 224 then 160 else 128
        let hi1 := if b = 237 then 159 else 191
        if (lo1 ≤ c1 && c1 ≤ hi1) && utf8Cont c2 then some r else none
      | _ => none
    else if 240 ≤ b && b ≤ 244 then
      match rest with
      | c1 :: c2 :: c3 :: r =>
        let lo1 := if b = 240 then 144 else 128
        let hi1 := if b = 244 then 143 else 191
        if (lo1 ≤ c1 && c1 ≤ hi1) && (utf8Cont c2 && utf8Cont c3) then some r
        else none
      | _ => none
    else none

/-- Fueled UTF-8 validation loop; each step consumes at least one byte,
so fuel = length suffices. -/
def utf8ValidAux : Nat → List Nat → Bool
  | _, [] => true
  | 0, _ :: _ => false
  | fuel + 1, l =>
    match utf8Step l with
    | some r => utf8ValidAux fuel r
    | none => false

/-- Whether a byte list is valid UTF-8 (the check done by
std::str::from_utf8 inside String::decode). -/
def utf8Valid (l : List Nat) : Bool := utf8ValidAux l.length l

/-- The usize wrap modulus. -/
def U64 : Nat := 18446744073709551616

/-- String::decode (src/bitwise/src/lib.rs lines 121-138): reads a usize
length, checks buffer.len() < cursor + len (the addition wraps at
2 ^ 64: the declared length is attacker-controlled and may be as large
as 2 ^ 64 - 1), then takes the slice buffer[cursor .. cursor + len] —
a Rust slice with start > end panics, which is DecRes.fault — validates
UTF-8, and advances the cursor. -/
def stringDecode (cursor : Nat) (buffer : List Nat) : DecRes (List Nat) :=
  match usizeDecode cursor buffer with
  | .ok len c1 =>
    let e := (c1 + len) % U64
    if buffer.length < e then .fail
    else if c1 ≤ e then
      let bytes := (buffer.drop c1).take (e - c1)
      if utf8Valid bytes then .ok bytes e else .fail
    else .fault
  | .fail => .fail
  | .fault => .fault

/-- String::encode (src/bitwise/src/lib.rs): usize length prefix then
the raw UTF-8 bytes. -/
def stringEncode (bytes : List Nat) : List Nat :=
  natToLE 8 bytes.length ++ bytes

/-- Encoder (src/bitwise/src/lib.rs): a byte buffer whose first
LEN_SIZE = 4 bytes are reserved for the frame length. -/
structure Encoder where
  bytes : List Nat
deriving DecidableEq, Repr

/-- Encoder::new: a buffer holding the 4-byte length placeholder. -/
def Encoder.new : Encoder := ⟨List.replicate 4 0⟩

/-- Encoder::clear: truncate back to the 4-byte placeholder. -/
def Encoder.clear (e : Encoder) : Encoder := ⟨e.bytes.take 4⟩

/-- Encoder::encode: Bitwise::encode appends the value's bytes. -/
def Encoder.push (e : Encoder) (valueBytes : List Nat) : Encoder :=
  ⟨e.bytes ++ valueBytes⟩

/-- Encoder::data (src/bitwise/src/lib.rs lines 37-41): computes the
4-byte little-endian payload length, then does
self.data.copy_from_slice(&len) — copy_from_slice requires the source
and destination slices to have EQUAL lengths and panics otherwise, and
the destination here is the whole buffer, so this panics (= none)
unless the buffer is exactly the 4-byte placeholder. -/
def Encoder.dataFrame (e : Encoder) : Option (List Nat) :=
  let len := natToLE 4 ((e.bytes.length - 4) % 4294967296)
  if e.bytes.length = 4 then some len else none

/-- The test enum of src/bitwise/src/lib.rs (shape produced by
derive(Bitwise) in src/derive/src/lib.rs): Goo::A { a: u8, b: u16 },
Goo::B(i32, i32), Goo::C.  Numeric fields are held as their
little-endian wire values. -/
inductive Goo where
  | A (a : Nat) (b : Nat)
  | B (f0 : Nat) (f1 : Nat)
  | C
deriving DecidableEq, Repr

/-- derive(Bitwise) encode for Goo (src/derive/src/lib.rs lines
143-206): the macro picks the discriminant width from the variant
count — 3 variants, so a u8-suffixed literal, one byte — then the
variant's fields in declaration order. -/
def gooEncode : Goo → List Nat
  | .A a b => natToLE 1 0 ++ (natToLE 1 a ++ natToLE 2 b)
  | .B f0 f1 => natToLE 1 1 ++ (natToLE 4 f0 ++ natToLE 4 f1)
  | .C => natToLE 1 2

/-- derive(Bitwise) decode for Goo (src/derive/src/lib.rs lines
208-272): the macro emits `let mut id: usize = 0; id.decode(...)` —
an 8-byte usize read, regardless of the width encode used — then
dispatches on id, returning None for an out-of-range tag. -/
def gooDecode (cursor : Nat) (buffer : List Nat) : DecRes Goo :=
  match usizeDecode cursor buffer with
  | .ok id c1 =>
    if id = 0 then
      match decodeNum 1 c1 buffer with
      | .ok a c2 =>
        match decodeNum 2 c2 buffer with
        | .ok b c3 => .ok (.A a b) c3
        | .fail => .fail
        | .fault => .fault
      | .fail => .fail
      | .fault => .fault
    else if id = 1 then
      match decodeNum 4 c1 buffer with
      | .ok f0 c2 =>
        match decodeNum 4 c2 buffer with
        | .ok f1 c3 => .ok (.B f0 f1) c3
        | .fail => .fail
        | .fault => .fault
      | .fail => .fail
      | .fault => .fault
    else if id = 2 then .ok .C c1
    else .fail
  | .fail => .fail
  | .fault => .fault

/-- One compare_exchange(false, true) on the writing flag of
DoubleState (src/util/src/sync.rs): returns (succeeded, new flag). -/
def casWriting (w : Bool) : Bool × Bool :=
  if w = false then (true, true) else (false, w)

/-- The acquisition loop of DoubleState::borrow_mut
(src/util/src/sync.rs lines 30-41):
`while let Ok(_) = self.writing.compare_exchange(false, true, ..) { spin }` —
the loop body runs while the compare_exchange SUCCEEDS and the loop
exits as soon as it FAILS, after which the guard is returned
unconditionally.  Returns (flag after the loop, number of CAS
operations); fuel bounds the iterations (2 always suffices). -/
def borrowMutLoop : Bool → Nat → Option (Bool × Nat)
  | _, 0 => none
  | w, fuel + 1 =>
    let r := casWriting w
    if r.1 then (borrowMutLoop r.2 fuel).map (fun p => (p.1, p.2 + 1))
    else some (r.2, 1)

/-- PoolStorage (src/server/src/server.rs lines 655-712): a growable
vector of optional slots plus a free-index stack.  The stack top is the
list head (Rust pushes/pops at the vector's end). -/
structure Pool (α : Type) where
  data : List (Option α)
  free : List Nat
deriving DecidableEq, Repr

/-- PoolStorage::new. -/
def Pool.empty : Pool α := ⟨[], []⟩

/-- PoolStorage::push: reuse the most recently freed slot when one
exists, else append; returns the new state and the handle. -/
def Pool.push (p : Pool α) (x : α) : Pool α × Nat :=
  match p.free with
  | id :: rest => (⟨p.data.set id (some x), rest⟩, id)
  | [] => (⟨p.data ++ [some x], []⟩, p.data.length)

/-- PoolStorage::remove: take the slot's value and push the handle on
the free stack.  Rust panics on an out-of-bounds index or a vacant slot
(expect "double free"); both are none here. -/
def Pool.remove (p : Pool α) (id : Nat) : Option (Pool α × α) :=
  match p.data.get? id with
  | some (some x) => some (⟨p.data.set id none, id :: p.free⟩, x)
  | _ => none

/-- PoolStorage::is_valid. -/
def Pool.isValid (p : Pool α) (id : Nat) : Bool :=
  decide (id < p.data.length) && ((p.data.get? id).getD none).isSome

/-- The Index impl for PoolStorage: some value on a live slot; Rust
panics (expect "invalid index" or out-of-bounds) otherwise, which is
none here. -/
def Pool.get (p : Pool α) (id : Nat) : Option α :=
  (p.data.get? id).getD none

/-- PoolStorage::count: total slots minus free-stack length. -/
def Pool.count (p : Pool α) : Nat := p.data.length - p.free.length

/-- The handles visited by PoolStorage::iter_mut, in increasing order:
enumerate the data vector and keep the occupied indices. -/
def Pool.members (p : Pool α) : List Nat :=
  (List.range p.data.length).filter (fun i => p.isValid i)

/-- Well-formedness of a pool: the free stack holds distinct in-range
indices, and a slot is vacant exactly when its index is free. -/
def Pool.WF (p : Pool α) : Prop :=
  p.free.Nodup ∧ (∀ i ∈ p.free, i < p.data.length) ∧
    (∀ i ∈ List.range p.data.length, (p.data.get? i = some none ↔ i ∈ p.free))

/-- The pool states reachable through the PoolStorage interface:
empty, push, and successful remove. -/
inductive Pool.Reachable : Pool α → Prop where
  | empty : Pool.Reachable Pool.empty
  | push (p : Pool α) (x : α) (h : Pool.Reachable p) :
      Pool.Reachable (p.push x).1
  | remove (p : Pool α) (i : Nat) (q : Pool α) (x : α) (h : Pool.Reachable p)
      (hr : p.remove i = some (q, x)) : Pool.Reachable q

/-- The reserved opcodes (src/server/src/server.rs lines 14-17). -/
def ERROR_OC : Nat := 0

/-- PLAYER_JOIN opcode. -/
def PLAYER_JOIN_OC : Nat := 1

/-- JOIN_REQUEST opcode. -/
def JOIN_REQUEST_OC : Nat := 2

/-- KICK_REQUEST opcode. -/
def KICK_REQUEST_OC : Nat := 3

/-- The all-ones u32 sentinel JoinRequestData::NEW_SESSION. -/
def NEW_SESSION : Nat := 4294967295

/-- Package (src/server/src/server.rs lines 298-306).  Player and
Session handles are u32 wire values held as Nat. -/
structure Package where
  opCode : Nat
  source : Nat
  session : Nat
  tcp : Bool
  targets : List Nat
  data : List Nat
deriving DecidableEq, Repr

/-- Package::write (src/server/src/server.rs lines 329-338): writes
op_code, source and the data slice; the session, tcp and targets fields
are commented out ("not important to client").  Buffer::write itself is
not among the available sources; modelled from the spec: u32 fields are
4-byte little-endian, bytes are written as a length-prefixed
sequence. -/
def Package.write (p : Package) : List Nat :=
  natToLE 4 p.opCode ++ natToLE 4 p.source ++ (natToLE 8 p.data.length ++ p.data)

/-- A session entity (src/server/src/server.rs SessionEnt): player
pool, password (u128 value) and fixed owner handle.  Player entities
are kept abstract. -/
structure SessionSt (α : Type) where
  players : Pool α
  password : Nat
  owner : Nat
deriving DecidableEq, Repr

/-- SessionEnt::new: a fresh pool holding only the owner. -/
def SessionSt.create (password : Nat) (owner : α) : SessionSt α :=
  let p := Pool.push Pool.empty owner
  ⟨p.1, password, p.2⟩

/-- SessionEnt::kick (src/server/src/server.rs lines 371-378): a
non-owner requester only gets an error (indexing the requester's slot,
which panics when the requester handle is invalid); an owner's kick
removes the target UNCONDITIONALLY — PoolStorage::remove panics on an
invalid target handle (none here). -/
def SessionSt.kick (s : SessionSt α) (byId target : Nat) : Option (SessionSt α) :=
  if byId ≠ s.owner then
    if s.players.isValid byId then some s else none
  else
    match s.players.remove target with
    | some (p, _) => some { s with players := p }
    | none => none

/-- Per-recipient notification loop of SessionEnt::send_join_info
(src/server/src/server.rs lines 380-388): visit the given handles in
order; ok says whether the send to a handle succeeds; the loop
?-propagates the first failure.  Returns (all succeeded, handles
notified before the first failure). -/
def notifyAll (ok : Nat → Bool) : List Nat → Bool × List Nat
  | [] => (true, [])
  | i :: rest =>
    if ok i then
      let r := notifyAll ok rest
      (r.1, i :: r.2)
    else (false, [])

/-- SessionEnt::accept (src/server/src/server.rs lines 357-369): a
password mismatch only sends an error and admits nothing; otherwise the
candidate is pushed and send_join_info notifies every current member
(pool iteration order, including the joiner); if that fails, the new
member is removed again.  The remove indexes the pool and panics on an
invalid handle (none here; the handle was just pushed, so this cannot
happen).  The join-info payload content (thread id, session id, udp
port) does not affect membership and is not modelled. -/
def SessionSt.accept (s : SessionSt α) (password : Nat) (cand : α)
    (ok : Nat → Bool) : Option (SessionSt α × List Nat) :=
  if s.password ≠ password then some (s, [])
  else if (notifyAll ok (s.players.push cand).1.members).1 then
    some ({ s with players := (s.players.push cand).1 },
      (notifyAll ok (s.players.push cand).1.members).2)
  else
    match (s.players.push cand).1.remove (s.players.push cand).2 with
    | some (p2, _) =>
      some ({ s with players := p2 },
        (notifyAll ok (s.players.push cand).1.members).2)
    | none => none

/-- The kick side effect at the top of SessionEnt::send_package
(src/server/src/server.rs lines 390-420): on a KICK_REQUEST, an empty
target list only draws an error to the requester (indexing its slot,
which panics on an invalid requester handle); otherwise kick on the
FIRST wire target. -/
def SessionSt.kickPhase (s : SessionSt α) (pkg : Package) :
    Option (SessionSt α) :=
  if pkg.opCode = KICK_REQUEST_OC then
    match pkg.targets with
    | [] => if s.players.isValid pkg.source then some s else none
    | t :: _ => s.kick pkg.source t
  else some s

/-- SessionEnt::send_package (src/server/src/server.rs lines 390-420):
the kick phase, then the relay over the resulting state.  ok says
whether the send to a handle succeeds.  With an empty target list the
package goes to every pool member except the source; otherwise to each
listed target that is still valid.  Each failed send pushes that
recipient on the kick queue.  Returns (session after side effect,
attempted sends as (handle, bytes written), kick queue). -/
def SessionSt.sendPackage (s : SessionSt α) (pkg : Package)
    (ok : Nat → Bool) :
    Option (SessionSt α × List (Nat × List Nat) × List Nat) :=
  match s.kickPhase pkg with
  | none => none
  | some s1 =>
    match pkg.targets with
    | [] =>
      let recips := s1.players.members.filter (fun i => i ≠ pkg.source)
      some (s1, recips.map (fun i => (i, Package.write pkg)),
        recips.filter (fun i => !ok i))
    | _ :: _ =>
      let recips := pkg.targets.filter (fun t => s1.players.isValid t)
      some (s1, recips.map (fun t => (t, Package.write pkg)),
        recips.filter (fun t => !ok t))

/-- A worker thread's session pool (src/server/src/server.rs
ThreadState, reduced to the state the join path touches). -/
structure ThreadSt (α : Type) where
  sessions : Pool (SessionSt α)
deriving DecidableEq, Repr

/-- The body of ThreadState::collect_new_connections
(src/server/src/server.rs lines 219-234) for one drained JoinRequest
carrying (password, session, candidate).  A NEW_SESSION sentinel
creates a session (create_session; its join-info send failure is only
logged).  Otherwise the code checks is_valid and on failure only LOGS
an error — there is no early return — and then unconditionally indexes
self.sessions[data.session] to call accept; the Index impl panics on an
invalid handle (none here). -/
def collectNewConnection (st : ThreadSt α) (password session : Nat)
    (cand : α) (ok : Nat → Bool) : Option (ThreadSt α) :=
  if session = NEW_SESSION then
    some ⟨(st.sessions.push (SessionSt.create password cand)).1⟩
  else
    match st.sessions.get session with
    | some sess =>
      match sess.accept password cand ok with
      | some (sess1, _) =>
        some ⟨⟨st.sessions.data.set session (some sess1), st.sessions.free⟩⟩
      | none => none
    | none => none

/-- A connection endpoint (src/server/src/server.rs PlayerEnt), reduced
to the state the UDP-learning claims touch: the TCP peer IP as reported
by peer_addr (none when the call fails) and the learned UDP address as
(ip, port). -/
structure PlayerSt where
  tcpPeerIp : Option Nat
  udpAddr : Option (Nat × Nat)
deriving DecidableEq, Repr

/-- PlayerEnt::set_udp_addr (src/server/src/server.rs lines 503-507):
stores the datagram's source address UNCONDITIONALLY, then returns
whether the TCP peer IP equals the datagram's source IP (ports are not
compared). -/
def setUdpAddr (p : PlayerSt) (addr : Option (Nat × Nat)) :
    PlayerSt × Bool :=
  ({ p with udpAddr := addr }, p.tcpPeerIp == addr.map Prod.fst)

/-- The per-datagram body of ThreadState::handle_udp_packets
(src/server/src/server.rs lines 244-295) after the session and source
validity checks have passed: set_udp_addr on the source player; on an
IP mismatch the datagram is dropped (continue) — no relay, no kick —
otherwise the package is relayed and each queued kick is removed from
the pool.  Returns (session after, attempted sends), or none on a
panic. -/
def handleUdpDatagram (sess : SessionSt PlayerSt) (pkg : Package)
    (addr : Option (Nat × Nat)) (ok : Nat → Bool) :
    Option (SessionSt PlayerSt × List (Nat × List Nat)) :=
  match sess.players.get pkg.source with
  | none => none
  | some player =>
    let sr := setUdpAddr player addr
    let sess1 : SessionSt PlayerSt :=
      { sess with
        players := ⟨sess.players.data.set pkg.source (some sr.1),
          sess.players.free⟩ }
    if !sr.2 then some (sess1, [])
    else
      match sess1.sendPackage pkg ok with
      | some (s2, sends, kicks) =>
        match kicks.foldlM (fun (acc : SessionSt PlayerSt) k =>
            (acc.players.remove k).map
              (fun pr => { acc with players := pr.1 })) s2 with
        | some s3 => some (s3, sends)
        | none => none
      | none => none

/-- The first three reads of Package::load (src/server/src/server.rs
lines 309-327): op_code, source, session, each a u32.  Buffer::read is
not among the available sources; modelled from the spec: Bitwise decode
of successive fields from the start of the frame payload. -/
def packageHeader (buf : List Nat) : DecRes (Nat × Nat × Nat) :=
  match decodeNum 4 0 buf with
  | .ok op c1 =>
    match decodeNum 4 c1 buf with
    | .ok src c2 =>
      match decodeNum 4 c2 buf with
      | .ok sess c3 => .ok (op, src, sess) c3
      | .fail => .fail
      | .fault => .fault
    | .fail => .fail
    | .fault => .fault
  | .fail => .fail
  | .fault => .fault

/-- The remaining reads of Package::load after the hint check: tcp
(bool), targets (Vec of u32 handles), data (Vec of u8). -/
def packageRest (op src sess : Nat) (c3 : Nat) (buf : List Nat) :
    DecRes Package :=
  match boolDecode c3 buf with
  | .ok tcp c4 =>
    match vecDecode (decodeNum 4) c4 buf with
    | .ok targets c5 =>
      match vecDecode (decodeNum 1) c5 buf with
      | .ok data c6 => .ok ⟨op, src, sess, tcp, targets, data⟩ c6
      | .fail => .fail
      | .fault => .fault
    | .fail => .fail
    | .fault => .fault
  | .fail => .fail
  | .fault => .fault

/-- Package::load (src/server/src/server.rs lines 309-327): header,
then — when a (session, source) hint is supplied — failure unless the
declared session and source match it exactly, then the remaining
fields. -/
def packageLoad (hint : Option (Nat × Nat)) (buf : List Nat) :
    DecRes Package :=
  match packageHeader buf with
  | .ok h c3 =>
    match hint with
    | some hs =>
      if h.2.2 ≠ hs.1 ∨ h.2.1 ≠ hs.2 then .fail
      else packageRest h.1 h.2.1 h.2.2 c3 buf
    | none => packageRest h.1 h.2.1 h.2.2 c3 buf
  | .fail => .fail
  | .fault => .fault

/-- One outcome of PlayerEnt::recv_tcp as seen by the drain loop: a
complete frame's payload, a WouldBlock, or another I/O error. -/
inductive RecvEvent where
  | frame (bytes : List Nat)
  | wouldBlock
  | ioError
deriving DecidableEq, Repr

/-- PlayerEnt::collect_tcp_packages (src/server/src/server.rs lines
513-543) over a trace of recv outcomes.  A frame is loaded with the
(session, this) hint; the ?-operator propagates a load failure, so the
function returns none — the caller then queues this connection for
removal.  WouldBlock ends the drain: none when the connection is past
the inactivity deadline, otherwise the collected packages.  Any other
I/O error returns none.  (An exhausted trace is read as an immediate
WouldBlock on a live connection.) -/
def collectTcpPackages (session this : Nat) (inactive : Bool) :
    List RecvEvent → List Package → Option (List Package)
  | [], acc => some acc
  | .frame b :: rest, acc =>
    match packageLoad (some (session, this)) b with
    | .ok pkg _ => collectTcpPackages session this inactive rest (acc ++ [pkg])
    | .fail => none
    | .fault => none
  | .wouldBlock :: _, acc => if inactive then none else some acc
  | .ioError :: _, _ => none

/-- The number of live (occupied) slots of a pool, counted directly. -/
def Pool.liveCount (p : Pool α) : Nat := (p.data.filter Option.isSome).length

/-- A complete relay frame that declares session 7 and source 1:
op_code 5, tcp flag set, no targets, no payload. -/
def spoofFrame : List Nat :=
  natToLE 4 5 ++ natToLE 4 1 ++ natToLE 4 7 ++ [1] ++ natToLE 8 0 ++ natToLE 8 0

/-- A complete relay frame that declares session 0 and source 1:
op_code 5, tcp flag set, no targets, no payload. -/
def selfFrame : List Nat :=
  natToLE 4 5 ++ natToLE 4 1 ++ natToLE 4 0 ++ [1] ++ natToLE 8 0 ++ natToLE 8 0

/-- A String frame whose declared usize length is 2 ^ 64 - 1 followed by
one data byte. -/
def hugeLenFrame : List Nat := List.replicate 8 255 ++ [0]

theorem natToLE_length (w v : Nat) : (natToLE w v).length = w := by
  induction w generalizing v with
  | zero => rfl
  | succ n ih => simp [natToLE, ih]

/-- C9: framing a message after encoding any payload and resetting the
buffer.  The code_bug evaluation: Encoder::data panics (none) already
for a single encoded u8 payload byte, because
self.data.copy_from_slice(&len) requires the whole buffer to have
length 4; it only "works" on an empty payload.  Encoder::clear does
reset the buffer to the 4-byte placeholder as claimed. -/
theorem encoder_data_panics :
    Encoder.dataFrame (Encoder.push Encoder.new (natToLE 1 7)) = none ∧
    Encoder.clear (Encoder.push Encoder.new (natToLE 1 7)) = Encoder.new ∧
    Encoder.dataFrame Encoder.new = some (natToLE 4 0) := by
  exact ⟨rfl, rfl, rfl⟩

/-- C10: the code_bug evaluation for DoubleState::borrow_mut.  Thread A
calls borrow_mut with the writing flag clear: the loop performs a
successful CAS (flag := true), spins once, performs one failing CAS and
exits, returning A's guard (first conjunct).  While A's guard is live
(flag still true), thread B's borrow_mut performs ONE failing CAS and
exits immediately, returning a second guard without ever waiting for
the release (second conjunct): the while-let condition is inverted, so
two writers proceed at once. -/
theorem borrow_mut_no_mutual_exclusion :
    borrowMutLoop false 2 = some (true, 2) ∧
    borrowMutLoop true 2 = some (true, 1) := by
  exact ⟨rfl, rfl⟩

/-- C2: the code_bug evaluation.  First conjunct: a worker with an empty
session pool receives a join request naming session 0 (not the
NEW_SESSION sentinel); collect_new_connections logs "Session does not
exists!" but has no early return and indexes self.sessions[0], which
panics (none).  Second conjunct: a session owner's kick request naming
the invalid target handle 5 goes straight into PoolStorage::remove,
which panics (none).  Both pool faults are reachable from wire input,
contrary to the claim. -/
theorem wire_handles_fault_pool_ops :
    collectNewConnection (⟨Pool.empty⟩ : ThreadSt Nat) 0 0 99
      (fun _ => true) = none ∧
    SessionSt.kick (SessionSt.create 7 (42 : Nat)) 0 5 = none := by
  exact ⟨rfl, rfl⟩

/-- C7: the code_bug evaluation.  Decoding a String from a 9-byte buffer
whose declared length is 2 ^ 64 - 1: the hostile length exceeds the
remaining 1 byte, but cursor + len wraps to 7 in usize, so the
"prevents injected huge allocations" guard (8 + (2 ^ 64 - 1) computed
in usize) passes, and the slice buffer[8 .. 7] panics — a fault, not
the clean None the claim requires.  (With debug overflow checks the
addition itself panics at the same input.) -/
theorem string_decode_overflow_faults :
    stringDecode 0 hugeLenFrame = DecRes.fault := by
  rfl
theorem usizeDecode_ok (l : List Nat) (h : 8 ≤ l.length) :
    usizeDecode 0 l = .ok (natFromLE (l.take 8)) 8 := by
  simp [usizeDecode, decodeNum, Nat.not_lt.mpr h]

/-- C1: the code_bug evaluation: for EVERY value of the crate's own test
enum Goo, decode(encode(v)) is a decode failure rather than v — the
derive macro encodes the discriminant at the width picked from the
variant count (one byte here) but decodes it as an 8-byte usize, so the
crate's own test_all round-trip assertion cannot hold. -/
theorem goo_roundtrip_fails (g : Goo) :
    gooDecode 0 (gooEncode g) = DecRes.fail := by
  cases g with
  | C => rfl
  | A a b =>
    have h : (gooEncode (.A a b)).length = 4 := by
      simp [gooEncode, natToLE_length]
    simp [gooDecode, usizeDecode, decodeNum, h]
  | B f0 f1 =>
    have hlen : (gooEncode (.B f0 f1)).length = 9 := by
      simp [gooEncode, natToLE_length]
    have htake : (gooEncode (.B f0 f1)).take 8 =
        1 :: (natToLE 4 f0 ++ natToLE 4 f1).take 7 := by
      simp [gooEncode, natToLE]
    have hid : natFromLE ((gooEncode (.B f0 f1)).take 8) =
        1 + 256 * natFromLE ((natToLE 4 f0 ++ natToLE 4 f1).take 7) := by
      rw [htake]; rfl
    rw [gooDecode, usizeDecode_ok _ (by omega), hid]
    have h0 : ¬ (1 + 256 * natFromLE ((natToLE 4 f0 ++ natToLE 4 f1).take 7) = 0) := by
      omega
    by_cases h1 : natFromLE ((natToLE 4 f0 ++ natToLE 4 f1).take 7) = 0
    · simp [h0, h1, decodeNum, hlen]
    · have h2 : ¬ (1 + 256 * natFromLE ((natToLE 4 f0 ++ natToLE 4 f1).take 7) = 1) := by
        omega
      have h3 : ¬ (1 + 256 * natFromLE ((natToLE 4 f0 ++ natToLE 4 f1).take 7) = 2) := by
        omega
      simp [h0, h2, h3]
theorem get?_set_self (l : List (Option α)) (i : Nat) (v : Option α)
    (h : i < l.length) : (l.set i v).get? i = some v := by
  induction l generalizing i with
  | nil => simp at h
  | cons a t ih =>
    cases i with
    | zero => rfl
    | succ n => simpa using ih n (by simpa using h)

theorem get?_set_ne (l : List (Option α)) (i j : Nat) (v : Option α)
    (h : i ≠ j) : (l.set i v).get? j = l.get? j := by
  induction l generalizing i j with
  | nil => rfl
  | cons a t ih =>
    cases i with
    | zero => cases j with
      | zero => exact absurd rfl h
      | succ m => rfl
    | succ n => cases j with
      | zero => rfl
      | succ m => simpa using ih n m (by omega)

theorem set_get?_id (l : List (Option α)) (i : Nat) (v : Option α)
    (h : l.get? i = some v) : l.set i v = l := by
  induction l generalizing i with
  | nil => rfl
  | cons a t ih =>
    cases i with
    | zero => simp at h; simp [h]
    | succ n =>
      show a :: t.set n v = a :: t
      rw [ih n h]

theorem get?_append_left (l m : List α) (j : Nat) (h : j < l.length) :
    (l ++ m).get? j = l.get? j := by
  induction l generalizing j with
  | nil => simp at h
  | cons a t ih =>
    cases j with
    | zero => rfl
    | succ n => simpa using ih n (by simpa using h)

theorem get?_append_len (l : List α) (x : α) :
    (l ++ [x]).get? l.length = some x := by
  induction l with
  | nil => rfl
  | cons a t ih => simp [ih]
theorem get?_some_lt (l : List α) (i : Nat) (v : α) (h : l.get? i = some v) :
    i < l.length := by
  induction l generalizing i with
  | nil => exact absurd h (by simp)
  | cons a t ih =>
    cases i with
    | zero => simp
    | succ n => simpa using ih n h

theorem remove_inv (p : Pool α) (i : Nat) (q : Pool α) (y : α)
    (h : p.remove i = some (q, y)) :
    p.data.get? i = some (some y) ∧
      q = ⟨p.data.set i none, i :: p.free⟩ := by
  unfold Pool.remove at h
  cases hg : p.data.get? i with
  | none => rw [hg] at h; exact absurd h (by simp)
  | some o =>
    cases o with
    | none => rw [hg] at h; exact absurd h (by simp)
    | some z =>
      rw [hg] at h
      simp only [Option.some.injEq, Prod.mk.injEq] at h
      obtain ⟨h1, h2⟩ := h
      subst h2
      exact ⟨rfl, h1.symm⟩

theorem wf_empty : (Pool.empty : Pool α).WF := by
  refine ⟨List.nodup_nil, ?_, ?_⟩ <;> simp [Pool.empty]

theorem wf_push (p : Pool α) (hp : p.WF) (x : α) : (p.push x).1.WF := by
  obtain ⟨hnd, hlt, hiff⟩ := hp
  cases hfree : p.free with
  | nil =>
    have hpush : (p.push x).1 = ⟨p.data ++ [some x], []⟩ := by
      simp [Pool.push, hfree]
    rw [hpush]
    refine ⟨List.nodup_nil, by simp, ?_⟩
    intro i hi
    simp only [List.mem_range, List.length_append, List.length_cons,
      List.length_nil] at hi
    constructor
    · intro hg
      rcases Nat.lt_or_ge i p.data.length with hlt2 | hge
      · rw [get?_append_left _ _ _ hlt2] at hg
        have hmem := (hiff i (by simp only [List.mem_range]; omega)).mp hg
        rw [hfree] at hmem
        simp at hmem
      · have hieq : i = p.data.length := by omega
        rw [hieq, get?_append_len] at hg
        simp at hg
    · intro hmem
      simp at hmem
  | cons id rest =>
    have hndc := List.nodup_cons.mp (hfree ▸ hnd)
    have hidlt : id < p.data.length := hlt id (by rw [hfree]; simp)
    have hpush : (p.push x).1 = ⟨p.data.set id (some x), rest⟩ := by
      simp [Pool.push, hfree]
    rw [hpush]
    refine ⟨hndc.2, ?_, ?_⟩
    · intro i hi
      simp only [List.length_set]
      exact hlt i (by rw [hfree]; exact List.mem_cons.mpr (Or.inr hi))
    · intro i hi
      simp only [List.mem_range, List.length_set] at hi
      by_cases hieq : i = id
      · subst hieq
        rw [get?_set_self _ _ _ hidlt]
        simp only [Option.some.injEq, reduceCtorEq, false_iff]
        exact hndc.1
      · rw [get?_set_ne _ _ _ _ (fun h => hieq h.symm)]
        have h2 := hiff i (by simp only [List.mem_range]; omega)
        rw [hfree] at h2
        constructor
        · intro hg
          rcases List.mem_cons.mp (h2.mp hg) with h | h
          · exact absurd h hieq
          · exact h
        · intro hmem
          exact h2.mpr (List.mem_cons.mpr (Or.inr hmem))

theorem wf_remove (p : Pool α) (hp : p.WF) (i : Nat) (q : Pool α) (x : α)
    (h : p.remove i = some (q, x)) : q.WF := by
  obtain ⟨hg, hq⟩ := remove_inv p i q x h
  obtain ⟨hnd, hlt, hiff⟩ := hp
  have hilt : i < p.data.length := get?_some_lt _ _ _ hg
  have hnotfree : i ∉ p.free := by
    intro hmem
    have hcontra := (hiff i (by simp only [List.mem_range]; omega)).mpr hmem
    rw [hg] at hcontra
    simp at hcontra
  subst hq
  refine ⟨List.nodup_cons.mpr ⟨hnotfree, hnd⟩, ?_, ?_⟩
  · intro j hj
    simp only [List.length_set]
    rcases List.mem_cons.mp hj with h1 | h1
    · omega
    · exact hlt j h1
  · intro j hj
    simp only [List.mem_range, List.length_set] at hj
    by_cases hje : j = i
    · subst hje
      rw [get?_set_self _ _ _ hilt]
      simp
    · rw [get?_set_ne _ _ _ _ (fun h1 => hje h1.symm)]
      have h2 := hiff j (by simp only [List.mem_range]; omega)
      constructor
      · intro hgj
        exact List.mem_cons.mpr (Or.inr (h2.mp hgj))
      · intro hmem
        rcases List.mem_cons.mp hmem with h1 | h1
        · exact absurd h1 hje
        · exact h2.mpr h1

theorem reachable_wf (p : Pool α) (h : p.Reachable) : p.WF := by
  induction h with
  | empty => exact wf_empty
  | push q x _ ih => exact wf_push q ih x
  | remove q i q2 x _ hr ih => exact wf_remove q ih i q2 x hr
theorem filter_length_set (P : Option α → Bool) (l : List (Option α))
    (i : Nat) (a b : Option α) (h : l.get? i = some a) :
    ((l.set i b).filter P).length + (if P a then 1 else 0)
      = (l.filter P).length + (if P b then 1 else 0) := by
  induction l generalizing i with
  | nil => exact absurd h (by simp)
  | cons hd t ih =>
    cases i with
    | zero =>
      have ha : hd = a := by simpa using h
      subst ha
      simp only [List.set]
      by_cases hpa : P hd <;> by_cases hpb : P b <;>
        simp [List.filter, hpa, hpb]
    | succ n =>
      have ht := ih n h
      simp only [List.set]
      by_cases hph : P hd <;> simp [List.filter, hph] <;> omega

theorem liveCount_free (p : Pool α) (h : p.Reachable) :
    p.liveCount + p.free.length = p.data.length := by
  induction h with
  | empty => rfl
  | push q x hq ih =>
    have hw := reachable_wf q hq
    cases hfree : q.free with
    | nil =>
      have hpush : (q.push x).1 = ⟨q.data ++ [some x], []⟩ := by
        simp [Pool.push, hfree]
      rw [hpush]
      have h1 : (List.filter Option.isSome (q.data ++ [some x])).length
          = (List.filter Option.isSome q.data).length + 1 := by
        simp [List.filter_append]
      rw [hfree] at ih
      simp only [Pool.liveCount, List.length_nil, Nat.add_zero] at ih
      simp only [Pool.liveCount, h1, List.length_nil, Nat.add_zero,
        List.length_append, List.length_cons]
      omega
    | cons id rest =>
      have hidlt : id < q.data.length := hw.2.1 id (by rw [hfree]; simp)
      have hidnone : q.data.get? id = some none :=
        (hw.2.2 id (by simp only [List.mem_range]; omega)).mpr
          (by rw [hfree]; simp)
      have hpush : (q.push x).1 = ⟨q.data.set id (some x), rest⟩ := by
        simp [Pool.push, hfree]
      rw [hpush]
      have hfl := filter_length_set Option.isSome q.data id none (some x) hidnone
      simp at hfl
      rw [hfree] at ih
      simp only [Pool.liveCount] at ih ⊢
      simp only [List.length_set, List.length_cons] at *
      omega
  | remove q i q2 x hq hr ih =>
    have hw := reachable_wf q hq
    obtain ⟨hg, hq2⟩ := remove_inv q i q2 x hr
    subst hq2
    have hfl := filter_length_set Option.isSome q.data i (some x) none hg
    simp at hfl
    simp only [Pool.liveCount] at ih ⊢
    simp only [List.length_set, List.length_cons] at *
    omega

/-- C8: slot-pool laws.  For every reachable pool state: removing a
just-pushed handle returns the pushed value; after a successful remove,
the next push reuses exactly the removed (most recently freed) index
and does not grow the data vector; and count() — total slots minus
free-stack length — equals the number of live (occupied) entries. -/
theorem pool_spec (p : Pool α) (hp : p.Reachable) (x : α) (i : Nat) :
    (∃ q, (p.push x).1.remove (p.push x).2 = some (q, x)) ∧
    (∀ q y, p.remove i = some (q, y) →
      (q.push x).2 = i ∧ (q.push x).1.data.length = p.data.length) ∧
    p.liveCount = p.count := by
  have hw := reachable_wf p hp
  refine ⟨?_, ?_, ?_⟩
  · cases hfree : p.free with
    | cons id rest =>
      have hidlt : id < p.data.length := hw.2.1 id (by rw [hfree]; simp)
      refine ⟨⟨(p.data.set id (some x)).set id none, id :: rest⟩, ?_⟩
      simp only [Pool.push, hfree]
      unfold Pool.remove
      rw [get?_set_self _ _ _ hidlt]
    | nil =>
      refine ⟨⟨(p.data ++ [some x]).set p.data.length none,
        p.data.length :: []⟩, ?_⟩
      simp only [Pool.push, hfree]
      unfold Pool.remove
      rw [get?_append_len]
  · intro q y hr
    obtain ⟨hg, hq⟩ := remove_inv p i q y hr
    subst hq
    constructor
    · simp [Pool.push]
    · simp [Pool.push, List.length_set]
  · have h := liveCount_free p hp
    unfold Pool.count
    omega

/-- Witness for pool_spec at the concrete reachable pool holding one
pushed value. -/
theorem pool_spec_witness :
    (∃ q, ((Pool.empty.push (5 : Nat)).1.push 7).1.remove
        (((Pool.empty.push (5 : Nat)).1.push 7).2) = some (q, 7)) ∧
    (∀ q y, (Pool.empty.push (5 : Nat)).1.remove 0 = some (q, y) →
      (q.push 7).2 = 0 ∧
        (q.push 7).1.data.length = (Pool.empty.push (5 : Nat)).1.data.length) ∧
    (Pool.empty.push (5 : Nat)).1.liveCount
      = (Pool.empty.push (5 : Nat)).1.count :=
  pool_spec (Pool.empty.push (5 : Nat)).1
    (Pool.Reachable.push Pool.empty 5 Pool.Reachable.empty) 7 0

theorem mem_members (p : Pool α) (i : Nat) :
    i ∈ p.members ↔ p.isValid i = true := by
  simp only [Pool.members, List.mem_filter, List.mem_range]
  constructor
  · intro h
    exact h.2
  · intro h
    refine ⟨?_, h⟩
    have := h
    unfold Pool.isValid at this
    exact of_decide_eq_true (Bool.and_elim_left this)

/-- C3: packet relay fan-out and header stripping.  Whenever
send_package completes without a pool fault (in particular for every
non-KICK_REQUEST packet), the attempted recipients are: with an empty
target list, exactly the current members of the session (as left by the
kick side effect) other than the source; with a non-empty target list,
exactly the listed targets that are currently valid, already-removed
targets silently skipped.  Every recipient is written the stripped form
of the packet — op_code, source and data only (Package.write omits
session, tcp and targets). -/
theorem relay_spec (s : SessionSt α) (pkg : Package) (ok : Nat → Bool)
    (s1 : SessionSt α) (sends : List (Nat × List Nat)) (kicks : List Nat)
    (h : s.sendPackage pkg ok = some (s1, sends, kicks)) :
    (pkg.targets = [] → ∀ i b, (i, b) ∈ sends ↔
      (s1.players.isValid i = true ∧ i ≠ pkg.source ∧
        b = Package.write pkg)) ∧
    (pkg.targets ≠ [] →
      sends = (pkg.targets.filter (fun t => s1.players.isValid t)).map
        (fun t => (t, Package.write pkg))) := by
  obtain ⟨op, src, sess, tcp, tgs, dat⟩ := pkg
  unfold SessionSt.sendPackage at h
  cases hk : s.kickPhase ⟨op, src, sess, tcp, tgs, dat⟩ with
  | none => rw [hk] at h; exact absurd h (by simp)
  | some s2 =>
    rw [hk] at h
    cases tgs with
    | nil =>
      simp only [Option.some.injEq, Prod.mk.injEq] at h
      obtain ⟨hs, hsends, -⟩ := h
      subst hs
      constructor
      · intro _ i b
        rw [← hsends]
        simp only [List.mem_map, List.mem_filter]
        constructor
        · rintro ⟨j, ⟨hjm, hjne⟩, hje⟩
          obtain ⟨hj1, hj2⟩ := Prod.mk.injEq .. ▸ hje
          subst hj1
          subst hj2
          exact ⟨(mem_members _ _).mp hjm, by simpa using hjne, rfl⟩
        · rintro ⟨hv, hne, hb⟩
          exact ⟨i, ⟨(mem_members _ _).mpr hv, by simpa using hne⟩,
            by rw [hb]⟩
      · intro hc
        exact absurd rfl hc
    | cons t ts =>
      simp only [Option.some.injEq, Prod.mk.injEq] at h
      obtain ⟨hs, hsends, -⟩ := h
      subst hs
      refine ⟨fun hc => List.noConfusion hc, fun _ => hsends.symm⟩

/-- Witness for relay_spec: a two-member session, a broadcast packet
from member 0; the only attempted recipient is member 1 with the
stripped bytes. -/
theorem relay_spec_witness :
    ((⟨5, 0, 0, true, [], [10]⟩ : Package).targets = [] →
      ∀ i b, (i, b) ∈ [(1, Package.write ⟨5, 0, 0, true, [], [10]⟩)] ↔
        ((⟨⟨[some 0, some 1], []⟩, 0, 0⟩ : SessionSt Nat).players.isValid i
            = true ∧
          i ≠ (⟨5, 0, 0, true, [], [10]⟩ : Package).source ∧
          b = Package.write ⟨5, 0, 0, true, [], [10]⟩)) ∧
    ((⟨5, 0, 0, true, [], [10]⟩ : Package).targets ≠ [] →
      [(1, Package.write ⟨5, 0, 0, true, [], [10]⟩)] =
        ((⟨5, 0, 0, true, [], [10]⟩ : Package).targets.filter
          (fun t => (⟨⟨[some 0, some 1], []⟩, 0, 0⟩ :
            SessionSt Nat).players.isValid t)).map
          (fun t => (t, Package.write ⟨5, 0, 0, true, [], [10]⟩))) :=
  relay_spec ⟨⟨[some 0, some 1], []⟩, 0, 0⟩ ⟨5, 0, 0, true, [], [10]⟩
    (fun _ => true) ⟨⟨[some 0, some 1], []⟩, 0, 0⟩
    [(1, Package.write ⟨5, 0, 0, true, [], [10]⟩)] [] rfl

theorem notifyAll_fst (ok : Nat → Bool) (l : List Nat) :
    (notifyAll ok l).1 = l.all ok := by
  induction l with
  | nil => rfl
  | cons i rest ih =>
    by_cases h : ok i <;> simp [notifyAll, h, ih]

theorem notifyAll_all (ok : Nat → Bool) (l : List Nat)
    (h : l.all ok = true) : (notifyAll ok l).2 = l := by
  induction l with
  | nil => rfl
  | cons i rest ih =>
    simp only [List.all_cons, Bool.and_eq_true] at h
    simp [notifyAll, h.1, ih h.2]

theorem push_id_valid (p : Pool α) (hw : p.WF) (x : α) :
    (p.push x).1.isValid (p.push x).2 = true := by
  cases hfree : p.free with
  | cons id rest =>
    have hidlt : id < p.data.length := hw.2.1 id (by rw [hfree]; simp)
    simp only [Pool.push, hfree, Pool.isValid, List.length_set]
    rw [get?_set_self _ _ _ hidlt]
    simp [hidlt]
  | nil =>
    simp only [Pool.push, hfree, Pool.isValid]
    rw [get?_append_len]
    simp

theorem push_remove_some (p : Pool α) (hw : p.WF) (x : α) :
    (p.push x).1.remove (p.push x).2
      = some (⟨(p.push x).1.data.set (p.push x).2 none,
          (p.push x).2 :: (p.push x).1.free⟩, x) := by
  cases hfree : p.free with
  | cons id rest =>
    have hidlt : id < p.data.length := hw.2.1 id (by rw [hfree]; simp)
    simp only [Pool.push, hfree]
    unfold Pool.remove
    rw [get?_set_self _ _ _ hidlt]
  | nil =>
    simp only [Pool.push, hfree]
    unfold Pool.remove
    rw [get?_append_len]

theorem set_append_len (l : List α) (x v : α) :
    (l ++ [x]).set l.length v = l ++ [v] := by
  induction l with
  | nil => rfl
  | cons a t ih => simp [List.set, ih]

theorem remove_push_restores (p : Pool α) (hw : p.WF) (cand : α) :
    (⟨(p.push cand).1.data.set (p.push cand).2 none,
        (p.push cand).2 :: (p.push cand).1.free⟩ : Pool α).members
      = p.members ∧
    (⟨(p.push cand).1.data.set (p.push cand).2 none,
        (p.push cand).2 :: (p.push cand).1.free⟩ : Pool α).count
      = p.count := by
  cases hfree : p.free with
  | cons id rest =>
    have hidlt : id < p.data.length := hw.2.1 id (by rw [hfree]; simp)
    have hidnone : p.data.get? id = some none :=
      (hw.2.2 id (by simp only [List.mem_range]; omega)).mpr
        (by rw [hfree]; simp)
    have hq : (⟨(p.push cand).1.data.set (p.push cand).2 none,
        (p.push cand).2 :: (p.push cand).1.free⟩ : Pool α) = p := by
      simp only [Pool.push, hfree]
      rw [List.set_set, set_get?_id _ _ _ hidnone, ← hfree]
    rw [hq]
    exact ⟨rfl, rfl⟩
  | nil =>
    have hq : (⟨(p.push cand).1.data.set (p.push cand).2 none,
        (p.push cand).2 :: (p.push cand).1.free⟩ : Pool α)
        = ⟨p.data ++ [none], [p.data.length]⟩ := by
      simp only [Pool.push, hfree]
      rw [set_append_len]
    rw [hq]
    constructor
    · unfold Pool.members
      simp only [List.length_append, List.length_cons, List.length_nil]
      rw [show p.data.length + (0 + 1) = p.data.length + 1 by omega,
        List.range_succ, List.filter_append]
      have hlast : (List.filter
          (fun i => (⟨p.data ++ [none], [p.data.length]⟩ : Pool α).isValid i)
          [p.data.length]) = [] := by
        simp only [List.filter, Pool.isValid]
        rw [get?_append_len]
        simp
      rw [hlast, List.append_nil]
      apply List.filter_congr
      intro i hi
      simp only [List.mem_range] at hi
      simp only [Pool.isValid, List.length_append, List.length_cons,
        List.length_nil]
      rw [get?_append_left _ _ _ hi]
      have h1 : decide (i < p.data.length + (0 + 1)) = true := by
        simp; omega
      have h2 : decide (i < p.data.length) = true := by simp [hi]
      rw [h1, h2]
    · unfold Pool.count
      rw [hfree]
      simp

/-- C4: session join. Against a well-formed player pool: a password
mismatch admits nothing and returns the session unchanged with nobody
notified; on a matching password the candidate is pushed and, when
every member's notification send succeeds, the resulting pool is
exactly the pushed pool and every current member including the joiner
was notified; when the send to the new member fails, the new member is
removed again, leaving the live membership and count exactly as before
the join. -/
theorem accept_spec (s : SessionSt α) (password : Nat) (cand : α)
    (ok : Nat → Bool) (hwf : s.players.WF) :
    (s.password ≠ password → s.accept password cand ok = some (s, [])) ∧
    (s.password = password →
      ∀ res notified, s.accept password cand ok = some (res, notified) →
        ((s.players.push cand).1.members.all ok = true →
          res.players = (s.players.push cand).1 ∧
          notified = (s.players.push cand).1.members) ∧
        (ok (s.players.push cand).2 = false →
          res.players.members = s.players.members ∧
          res.players.count = s.players.count)) := by
  constructor
  · intro hne
    simp [SessionSt.accept, hne]
  · intro hpw res notified h
    unfold SessionSt.accept at h
    rw [if_neg (by rw [hpw]; exact fun hc => hc rfl)] at h
    cases hn : (notifyAll ok (s.players.push cand).1.members).1 with
    | true =>
      rw [hn] at h
      simp only [if_true, Option.some.injEq, Prod.mk.injEq] at h
      obtain ⟨h1, h2⟩ := h
      constructor
      · intro hall
        refine ⟨by rw [← h1], ?_⟩
        rw [← h2, notifyAll_all ok _ hall]
      · intro hid
        rw [notifyAll_fst] at hn
        have hmem : (s.players.push cand).2 ∈ (s.players.push cand).1.members :=
          (mem_members _ _).mpr (push_id_valid s.players hwf cand)
        have := List.all_eq_true.mp hn _ hmem
        rw [hid] at this
        cases this
    | false =>
      rw [hn] at h
      simp only [if_false, Bool.false_eq_true] at h
      rw [push_remove_some s.players hwf cand] at h
      simp only [Option.some.injEq, Prod.mk.injEq] at h
      obtain ⟨h1, h2⟩ := h
      constructor
      · intro hall
        rw [notifyAll_fst, hall] at hn
        cases hn
      · intro _
        have hr := remove_push_restores s.players hwf cand
        rw [← h1]
        exact hr

/-- Witness for accept_spec: a one-member session with password 9 and an
always-succeeding send. -/
theorem accept_spec_witness :
    ((⟨⟨[some 0], []⟩, 9, 0⟩ : SessionSt Nat).password ≠ 9 →
      (⟨⟨[some 0], []⟩, 9, 0⟩ : SessionSt Nat).accept 9 1 (fun _ => true)
        = some (⟨⟨[some 0], []⟩, 9, 0⟩, [])) ∧
    ((⟨⟨[some 0], []⟩, 9, 0⟩ : SessionSt Nat).password = 9 →
      ∀ res notified,
        (⟨⟨[some 0], []⟩, 9, 0⟩ : SessionSt Nat).accept 9 1 (fun _ => true)
          = some (res, notified) →
        ((((⟨⟨[some 0], []⟩, 9, 0⟩ : SessionSt Nat).players.push 1).1.members.all
            (fun _ => true) = true →
          res.players
              = ((⟨⟨[some 0], []⟩, 9, 0⟩ : SessionSt Nat).players.push 1).1 ∧
          notified
            = ((⟨⟨[some 0], []⟩, 9, 0⟩ :
                SessionSt Nat).players.push 1).1.members) ∧
        ((fun _ => true)
            ((⟨⟨[some 0], []⟩, 9, 0⟩ : SessionSt Nat).players.push 1).2
              = false →
          res.players.members
              = (⟨⟨[some 0], []⟩, 9, 0⟩ : SessionSt Nat).players.members ∧
          res.players.count
            = (⟨⟨[some 0], []⟩, 9, 0⟩ : SessionSt Nat).players.count))) :=
  accept_spec ⟨⟨[some 0], []⟩, 9, 0⟩ 9 1 (fun _ => true)
    (wf_push Pool.empty wf_empty 0)

theorem packageRest_fields (op src sess c3 : Nat) (buf : List Nat)
    (pkg : Package) (c : Nat)
    (h : packageRest op src sess c3 buf = .ok pkg c) :
    pkg.opCode = op ∧ pkg.source = src ∧ pkg.session = sess := by
  unfold packageRest at h
  split at h
  · split at h
    · split at h
      · simp only [DecRes.ok.injEq] at h
        obtain ⟨h4, -⟩ := h
        rw [← h4]
        exact ⟨rfl, rfl, rfl⟩
      · cases h
      · cases h
    · cases h
    · cases h
  · cases h
  · cases h

/-- C5 (amended): during a TCP drain, a received frame that decodes to a
packet whose declared session does not match the connection's session
or whose declared source does not equal the connection's own id makes
Package::load fail under the hint; the packet is not added to the
outgoing package list, but — contrary to the claim — the drain does not
continue: the ?-operator propagates the failure and
collect_tcp_packages returns the connection-is-dead outcome (none), so
the caller queues the connection for removal. -/
theorem spoof_kills_connection (sess this : Nat) (inactive : Bool)
    (b : List Nat) (rest : List RecvEvent) (acc : List Package)
    (pkg : Package) (c : Nat)
    (hdec : packageLoad none b = .ok pkg c)
    (hbad : pkg.session ≠ sess ∨ pkg.source ≠ this) :
    collectTcpPackages sess this inactive (RecvEvent.frame b :: rest) acc
      = none := by
  have hload : packageLoad (some (sess, this)) b = .fail := by
    unfold packageLoad at hdec ⊢
    split at hdec
    next hd c3 heq =>
      obtain ⟨hop, hsrc, hsess⟩ := packageRest_fields _ _ _ _ _ _ _ hdec
      have hcond : hd.2.2 ≠ sess ∨ hd.2.1 ≠ this := by
        rcases hbad with hb | hb
        · exact Or.inl (by rw [← hsess]; exact hb)
        · exact Or.inr (by rw [← hsrc]; exact hb)
      show (if hd.2.2 ≠ sess ∨ hd.2.1 ≠ this then DecRes.fail
        else packageRest hd.1 hd.2.1 hd.2.2 c3 b) = DecRes.fail
      rw [if_pos hcond]
    next heq => cases hdec
    next heq => cases hdec
  unfold collectTcpPackages
  rw [hload]

/-- C5 counterexample.  First conjunct: with expected session 0 and own
id 1, a frame declaring session 7 (spoofFrame) makes the drain return
the connection-is-dead outcome (none) — the claim requires the drain to
continue and the connection not to be reported dead, i.e. the result
some [].  Second conjunct: a frame whose declared source EQUALS the
connection's own id (selfFrame, source 1) is ACCEPTED and relayed — the
claim calls this a self-send that is discarded. -/
theorem spoof_counterexample :
    collectTcpPackages 0 1 false
      [RecvEvent.frame spoofFrame, RecvEvent.wouldBlock] [] = none ∧
    collectTcpPackages 0 1 false
      [RecvEvent.frame selfFrame, RecvEvent.wouldBlock] []
      = some [⟨5, 1, 0, true, [], []⟩] := by
  exact ⟨rfl, rfl⟩

/-- Witness for spoof_kills_connection at the concrete spoofFrame. -/
theorem spoof_kills_connection_witness :
    collectTcpPackages 0 1 false
      [RecvEvent.frame spoofFrame, RecvEvent.wouldBlock] [] = none :=
  spoof_kills_connection 0 1 false spoofFrame [RecvEvent.wouldBlock] []
    ⟨5, 1, 7, true, [], []⟩ 29 rfl (by decide)

/-- C6 counterexample: a player whose TCP peer IP is 10 and whose
learned UDP address is unset receives a datagram from IP 20 (port 5).
The datagram is rejected (second component false), yet the stored UDP
address — which the claim says is left unchanged by a rejected
datagram — now holds the mismatching address. -/
theorem udp_mismatch_overwrites :
    (setUdpAddr ⟨some 10, none⟩ (some (20, 5))).2 = false ∧
    (setUdpAddr ⟨some 10, none⟩ (some (20, 5))).1.udpAddr
      = some (20, 5) := by
  exact ⟨rfl, rfl⟩

/-- C6 (amended): set_udp_addr stores the datagram's source address
UNCONDITIONALLY — even on an IP mismatch — and accepts exactly when the
TCP peer IP equals the datagram's source IP, the ports being ignored.
On a mismatch the worker drops the datagram without relaying it and
without kicking or removing the player: the only state change is the
overwritten stored UDP address. -/
theorem udp_learning_amended (p : PlayerSt) (addr : Option (Nat × Nat))
    (sess : SessionSt PlayerSt) (pkg : Package) (ok : Nat → Bool)
    (hsrc : sess.players.get pkg.source = some p)
    (hmis : (p.tcpPeerIp == addr.map Prod.fst) = false) :
    (setUdpAddr p addr).1.udpAddr = addr ∧
    (setUdpAddr p addr).2 = (p.tcpPeerIp == addr.map Prod.fst) ∧
    handleUdpDatagram sess pkg addr ok =
      some ({ sess with players := ⟨sess.players.data.set pkg.source
        (some { p with udpAddr := addr }), sess.players.free⟩ }, []) := by
  refine ⟨rfl, rfl, ?_⟩
  unfold handleUdpDatagram
  rw [hsrc]
  simp [setUdpAddr, hmis]

/-- Witness for udp_learning_amended: one-player session, TCP peer IP
10, datagram from IP 20 port 5. -/
theorem udp_learning_amended_witness :
    (setUdpAddr ⟨some 10, none⟩ (some (20, 5))).1.udpAddr = some (20, 5) ∧
    (setUdpAddr ⟨some 10, none⟩ (some (20, 5))).2
      = ((⟨some 10, none⟩ : PlayerSt).tcpPeerIp
        == (some (20, 5)).map Prod.fst) ∧
    handleUdpDatagram ⟨⟨[some ⟨some 10, none⟩], []⟩, 0, 0⟩
        ⟨5, 0, 0, false, [], []⟩ (some (20, 5)) (fun _ => true) =
      some (⟨⟨[some ⟨some 10, none⟩].set 0 (some ⟨some 10, some (20, 5)⟩),
        []⟩, 0, 0⟩, []) := by
  exact udp_learning_amended ⟨some 10, none⟩ (some (20, 5))
    ⟨⟨[some ⟨some 10, none⟩], []⟩, 0, 0⟩ ⟨5, 0, 0, false, [], []⟩
    (fun _ => true) rfl rfl
